import Mathlib

/-!
Verification of the swift-lint engine (src/addon/lint/swift-lint.js).

The engine is embedded shallowly: the source text is a `List Char`, offsets
are `Nat`, depth counters are `Int` (they can go negative in the source),
and every JavaScript function of the linter is translated to a total Lean
function of the same name.  JavaScript regular expressions are either
translated through a small backtracking matcher (`RE` / `reM` below) that
mirrors the ECMAScript leftmost-first backtracking semantics, or, where a
regex admits a deterministic reading (disjoint character classes on both
sides of every quantifier), compiled directly to a scanning function; each
such direct translation is justified in a comment at its definition.
-/

namespace SwiftLint

/-! ## Character classes and small string helpers -/

/-- JavaScript `\w` character class: ASCII letters, digits and underscore. -/
def wordChar (c : Char) : Bool := c.isAlpha || c.isDigit || c = '_'

/-- JavaScript `\s` character class.  We model the whitespace characters
that can occur in source text: space, tab, newline, carriage return,
vertical tab, form feed and no-break space.  (JS additionally treats some
rare Unicode space code points as `\s`; they are not modeled.) -/
def jsSpace (c : Char) : Bool :=
  c = ' ' || c = '\t' || c = '\n' || c = '\r' ||
  c = Char.ofNat 11 || c = Char.ofNat 12 || c = Char.ofNat 160

/-- The substring of `t` starting at `i` with length `len`. -/
def slice (t : List Char) (i len : Nat) : List Char := (t.drop i).take len

/-- Does the string `p` occur at offset `i` of `t`? -/
def prefixAt (p t : List Char) (i : Nat) : Bool := p.isPrefixOf (t.drop i)

/-- Length of the maximal run of characters satisfying `p` starting at
offset `i` of `t` (the deterministic reading of a greedy `X*` / `X+` over
a character class `X` that is disjoint from what follows). -/
def runLen (p : Char → Bool) (t : List Char) (i : Nat) : Nat :=
  ((t.drop i).takeWhile p).length

/-- JavaScript `String.prototype.substring`: negative arguments are clamped
to `0`, arguments above the length are clamped to the length, and the two
arguments are swapped when `start > end`. -/
def jsSubstring (s : List Char) (a b : Int) : List Char :=
  let n : Int := s.length
  let a' : Nat := (min (max a 0) n).toNat
  let b' : Nat := (min (max b 0) n).toNat
  let lo := min a' b'
  let hi := max a' b'
  (s.drop lo).take (hi - lo)

/-- JavaScript `String.prototype.indexOf`: the offset of the first
occurrence of `needle` in `hay`, and `-1` when there is none. -/
def jsIndexOf (hay needle : List Char) : Int :=
  go (hay.length + 1) 0
where
  go : Nat → Nat → Int
    | 0, _ => -1
    | fuel + 1, p =>
      if p > hay.length then -1
      else if needle.isPrefixOf (hay.drop p) then (p : Int)
      else go fuel (p + 1)

/-- Offset of the first occurrence of the character `c` in `t`. -/
def idxOf (t : List Char) (c : Char) : Option Nat := t.findIdx? (· = c)

/-! ## Data model -/

/-- Severity of a finding (`'warning'` / `'error'` in the source). -/
inductive Severity where
  | warning
  | error
  deriving DecidableEq, Repr

/-- A resolved position (`CodeMirror.Pos(line, col)`). -/
structure Pos where
  line : Nat
  col : Nat
  deriving DecidableEq, Repr

/-- A raw finding as produced by every rule (`{code, index, severity,
message}` in the source). -/
structure RawFinding where
  code : List Char
  index : Nat
  severity : Severity
  message : String
  deriving DecidableEq, Repr

/-- A position-resolved diagnostic (`{severity, message, from, to}`). -/
structure Diagnostic where
  severity : Severity
  message : String
  fromPos : Pos
  toPos : Pos
  deriving DecidableEq, Repr

/-- An exception range `{start, end}`; the source field `end` is a Lean
keyword, so it is called `endPos` here. -/
structure ERange where
  start : Nat
  endPos : Nat
  deriving DecidableEq, Repr

/-- The value of a declaration object's `params` field.  JavaScript allows
it to be `null` (zero-parameter functions), `undefined` (never assigned)
or a string; the three cases behave differently downstream because
`RegExp.exec` coerces `null` and `undefined` to the strings `"null"` and
`"undefined"`. -/
inductive ParamsVal where
  | undef
  | null
  | str (s : List Char)
  deriving DecidableEq, Repr

/-- A recovered function or type declaration (the body objects built by
`extractBodies`, optionally enriched by `getFunctionParameters`). -/
structure BodyDecl where
  code : List Char
  name : List Char
  index : Nat
  type : List Char
  maxDepth : Int
  paramCount : Option Nat := none
  params : ParamsVal := ParamsVal.undef
  deriving DecidableEq, Repr

/-- A variable binding recovered by `variableNameRule` /
`getVariablesFromTuples`. -/
structure VarInfo where
  name : List Char
  staticImmutable : Bool
  index : Nat
  deriving DecidableEq, Repr

/-! ## A small backtracking regex matcher

`RE` covers the constructs used by the linter's patterns: single-character
classes, concatenation, ordered alternation, greedy and lazy star, and the
anchors `^`, `$` and `\b`.  `x+` is translated as `x x*`, `x?` as
`(x | eps)`, `x{2,}` as `x x x*`, which coincides with ECMAScript
backtracking for these patterns.  The matcher `reM` is written in
continuation-passing style and explores alternatives in exactly the
ECMAScript order (leftmost alternative first, greedy quantifier longest
first, lazy quantifier shortest first).  A star iteration is required to
consume at least one character; all quantified subpatterns of the linter
consume at least one character per iteration, so this is faithful.  The
fuel argument strictly exceeds the depth of any exploration on the texts
involved; `reFuel` below is a generous bound. -/

inductive RE where
  | eps
  | cls (p : Char → Bool)
  | seq (a b : RE)
  | alt (a b : RE)
  | starG (r : RE)
  | starL (r : RE)
  | bol
  | eos
  | wb

namespace RE

/-- Literal string pattern. -/
def lit : List Char → RE
  | [] => eps
  | c :: cs => seq (cls (fun x => x = c)) (lit cs)

/-- Greedy `r+` as `r r*`. -/
def plusG (r : RE) : RE := seq r (starG r)

/-- Lazy `r+?` as `r r*?`. -/
def plusL (r : RE) : RE := seq r (starL r)

/-- Greedy `r{2,}` as `r r r*`. -/
def rep2 (r : RE) : RE := seq r (seq r (starG r))

/-- Ordered alternation of a non-empty list of patterns. -/
def altList : List RE → RE
  | [] => eps
  | [r] => r
  | r :: rs => alt r (altList rs)

/-- Structural size, used only to compute a sufficient fuel. -/
def sizeR : RE → Nat
  | eps => 1
  | cls _ => 1
  | seq a b => sizeR a + sizeR b + 1
  | alt a b => sizeR a + sizeR b + 1
  | starG r => sizeR r + 1
  | starL r => sizeR r + 1
  | bol => 1
  | eos => 1
  | wb => 1

end RE

/-- Is the character at offset `i` of `t` a word character?  (Out of range
offsets count as non-word, as in JavaScript.) -/
def isWordAt (t : List Char) (i : Nat) : Bool :=
  match t[i]? with
  | some c => wordChar c
  | none => false

/-- ECMAScript word boundary at offset `i` of `t`. -/
def wordBoundary (t : List Char) (i : Nat) : Bool :=
  let before := if i = 0 then false else isWordAt t (i - 1)
  before != isWordAt t i

/-- The backtracking matcher: `reM t fuel r i k` explores, in ECMAScript
order, the ways `r` can match in `t` starting at offset `i`; for each
candidate end offset `j` it calls the continuation `k j`, and returns the
first `some` result.  Every recursive call (including the ones inside
continuations) decreases the fuel, so the recursion is structural. -/
def reM (t : List Char) : Nat → RE → Nat → (Nat → Option Nat) → Option Nat
  | 0, _, _, _ => none
  | fuel + 1, re, i, k =>
    match re with
    | RE.eps => k i
    | RE.cls p =>
      match t[i]? with
      | some c => if p c then k (i + 1) else none
      | none => none
    | RE.seq a b => reM t fuel a i (fun j => reM t fuel b j k)
    | RE.alt a b =>
      match reM t fuel a i k with
      | some r => some r
      | none => reM t fuel b i k
    | RE.starG r =>
      match reM t fuel r i (fun j => if i < j then reM t fuel (RE.starG r) j k else none) with
      | some res => some res
      | none => k i
    | RE.starL r =>
      match k i with
      | some res => some res
      | none => reM t fuel r i (fun j => if i < j then reM t fuel (RE.starL r) j k else none)
    | RE.bol => if i = 0 then k i else none
    | RE.eos => if i = t.length then k i else none
    | RE.wb => if wordBoundary t i then k i else none

/-- A fuel that strictly exceeds the depth of any backtracking exploration
of `r` on `t`: each level of the continuation stack either consumes a
character (at most `t.length + 1` times) or descends into a strict
subpattern (at most `sizeR r` times in a row). -/
def reFuel (r : RE) (t : List Char) : Nat :=
  (RE.sizeR r + 2) * (t.length + 2)

/-- First match of `r` at an offset `≥ q`: tries `q`, `q + 1`, … exactly
like `RegExp.exec` resuming from `lastIndex = q`; returns the pair
(match offset, match end offset). -/
def matchFrom (r : RE) (t : List Char) (q : Nat) : Option (Nat × Nat) :=
  go (t.length + 1 - q) q
where
  go : Nat → Nat → Option (Nat × Nat)
    | 0, _ => none
    | fuel + 1, p =>
      if p > t.length then none
      else
        match reM t (reFuel r t) r p some with
        | some e => some (p, e)
        | none => go fuel (p + 1)

/-- All matches of `r` over `t` in the order produced by a
`while ((match = re.exec(text)) != null)` loop on a global regex: matches
are found left to right and the search resumes at the end of the previous
match (advancing by one if the match was empty).  Returns pairs of
(match offset, match length). -/
def execAll (r : RE) (t : List Char) : List (Nat × Nat) :=
  go (t.length + 2) 0
where
  go : Nat → Nat → List (Nat × Nat)
    | 0, _ => []
    | fuel + 1, p =>
      match matchFrom r t p with
      | none => []
      | some (idx, e) =>
        (idx, e - idx) :: go fuel (if e = idx then e + 1 else e)

/-! ## Position index (`obtainLineNumbers`, `getLinePos`) -/

/-- JavaScript `text.split('\n')`: always returns at least one (possibly
empty) line. -/
def splitLines : List Char → List (List Char)
  | [] => [[]]
  | c :: rest =>
    if c = '\n' then [] :: splitLines rest
    else
      match splitLines rest with
      | [] => [[c]]
      | l :: ls => (c :: l) :: ls

/-- The loop of `obtainLineNumbers`: cumulative start offsets, adding one
per stripped newline. -/
def lineStartsFrom : List (List Char) → Nat → List Nat
  | [], _ => []
  | l :: ls, cur => cur :: lineStartsFrom ls (cur + l.length + 1)

/-- The `LINE_NUMBERS` array built by `obtainLineNumbers text` (the
companion global `TEXT_LENGTH` is just `text.length`). -/
def obtainLineNumbers (text : List Char) : List Nat :=
  lineStartsFrom (splitLines text) 0

/-- The loop of `getLinePos`, from position `i` on, with an explicit fuel
(the loop increments `i` at every step and stops once `i` reaches the
array length, so a fuel of `ln.length + 1 - i` steps always suffices; the
fuel-0 fallback is unreachable in `getLinePos`).  The first branch with
`i = 0` would, in JavaScript, produce an out-of-range position
`Pos(-1, NaN)` (reading `LINE_NUMBERS[-1]`); that branch is unreachable
because `LINE_NUMBERS[0] = 0` is never above a `Nat` offset, and it is
modeled as a resolution failure. -/
def getLinePosGo (ln : List Nat) (tlen : Nat) (index : Nat) : Nat → Nat → Option Pos
  | 0, _ => none
  | fuel + 1, i =>
    if i < ln.length then
      if index < ln.getD i 0 then
        if i = 0 then none
        else some ⟨i - 1, index - ln.getD (i - 1) 0⟩
      else if index = ln.getD i 0 then some ⟨i, index - ln.getD i 0⟩
      else if i = ln.length - 1 ∧ index ≤ tlen then some ⟨i, index - ln.getD i 0⟩
      else getLinePosGo ln tlen index fuel (i + 1)
    else none

/-- `getLinePos`: resolve an offset against the line-number index; `none`
models the JavaScript `null` ("something went wrong"). -/
def getLinePos (ln : List Nat) (tlen : Nat) (index : Nat) : Option Pos :=
  getLinePosGo ln tlen index (ln.length + 1) 0

/-! ## Structural extractor (`extractBodies`) -/

/-- Splits `s` at its first brace: returns the prefix up to and including
the brace, the brace itself, and the rest.  This is exactly one step of
the `exec` loop on `/[^\}]*?\{|[^\{]*?\}/g`: the lazy quantifiers make
each match extend to the first following brace of either kind, so each
match contains exactly one brace, as its last character. -/
def splitAtBrace : List Char → Option (List Char × Char × List Char)
  | [] => none
  | c :: cs =>
    if c = '\x7b' ∨ c = '\x7d' then some ([c], c, cs)
    else (splitAtBrace cs).map (fun r => (c :: r.1, r.2.1, r.2.2))

theorem splitAtBrace_spec (s pre : List Char) (b : Char) (rest : List Char)
    (h : splitAtBrace s = some (pre, b, rest)) :
    rest.length < s.length ∧
      ∃ q, pre = q ++ [b] ∧ (∀ c ∈ q, c ≠ '\x7b' ∧ c ≠ '\x7d') ∧
        (b = '\x7b' ∨ b = '\x7d') := by
  induction s generalizing pre with
  | nil => simp [splitAtBrace] at h
  | cons c cs ih =>
    by_cases hc : c = '\x7b' ∨ c = '\x7d'
    · rw [splitAtBrace, if_pos hc] at h
      have h' := Option.some.inj h
      rw [Prod.mk.injEq, Prod.mk.injEq] at h'
      obtain ⟨hpre, hb, hrest⟩ := h'
      subst hpre; subst hb; subst hrest
      exact ⟨by simp, [], by simp, by simp, hc⟩
    · rw [splitAtBrace, if_neg hc] at h
      match hs : splitAtBrace cs with
      | none => rw [hs] at h; simp at h
      | some (pre', b', rest') =>
        rw [hs, Option.map_some'] at h
        have h' := Option.some.inj h
        rw [Prod.mk.injEq, Prod.mk.injEq] at h'
        obtain ⟨hpre, hb, hrest⟩ := h'
        subst hpre; subst hb; subst hrest
        obtain ⟨hlen, q, hq, hqf, hb⟩ := ih pre' hs
        refine ⟨by simpa using Nat.lt_succ_of_lt hlen, c :: q, by simp [hq], ?_, hb⟩
        intro x hx
        rcases List.mem_cons.mp hx with h | h
        · subst h
          push_neg at hc
          exact hc
        · exact hqf x h

/-- The body-capturing loop of `extractBodies`, with an explicit fuel
(every step consumes at least one character of `s`, so a fuel above
`s.length` always suffices and the fuel-0 fallback is unreachable in
`bodyScan`): repeatedly consume text up to and including the next brace,
adjusting the depth and recording the maximal depth, until the depth drops
to `0` or below (break) or no brace remains (the `exec` loop ends).
Returns the accumulated `code`, the final `depth` and the final
`maxDepth`. -/
def bodyScanGo : Nat → List Char → Int → Int → List Char → List Char × Int × Int
  | 0, _, depth, maxD, code => (code, depth, maxD)
  | fuel + 1, s, depth, maxD, code =>
    match splitAtBrace s with
    | none => (code, depth, maxD)
    | some (pre, b, rest) =>
      let depth' := if b = '\x7b' then depth + 1 else depth - 1
      let code' := code ++ pre
      let maxD' := if depth' > maxD then depth' else maxD
      if depth' ≤ 0 then (code', depth', maxD')
      else bodyScanGo fuel rest depth' maxD' code'

/-- The body-capturing loop of `extractBodies`. -/
def bodyScan (s : List Char) (depth maxD : Int) (code : List Char) :
    List Char × Int × Int :=
  bodyScanGo (s.length + 1) s depth maxD code

/-- A candidate declaration found by the search regex of `extractBodies`
(the keyword match offset and the captured name). -/
structure Candidate where
  name : List Char
  index : Nat
  deriving DecidableEq, Repr

/-- One attempt of `(?:^|\b)kw\s+(\w+)` at offset `p`: the alternation
`^|\b` requires offset `0` or a word boundary (since every keyword starts
with a word character, this means the previous character is a non-word
character); then the keyword, at least one whitespace character, and the
captured name, a maximal word run.  The character classes on the two sides
of each greedy quantifier are disjoint, so the parse is deterministic.
Returns the candidate and the match end offset. -/
def matchDecAt (kw t : List Char) (p : Nat) : Option (Candidate × Nat) :=
  if (p = 0 ∨ isWordAt t (p - 1) = false) ∧ prefixAt kw t p then
    let q := p + kw.length
    let ws := runLen jsSpace t q
    if ws = 0 then none
    else
      let nameLen := runLen wordChar t (q + ws)
      if nameLen = 0 then none
      else some (⟨slice t (q + ws) nameLen, p⟩, q + ws + nameLen)
  else none

/-- All candidates found by the `exec` loop of the search regex: scan left
to right, resuming after each match. -/
def findDecs (kw t : List Char) : List Candidate :=
  go (t.length + 2) 0
where
  go : Nat → Nat → List Candidate
    | 0, _ => []
    | fuel + 1, p =>
      if p > t.length then []
      else
        match matchDecAt kw t p with
        | some (c, e) => c :: go fuel e
        | none => go fuel (p + 1)

/-- Body capture for one candidate: scan the text from the candidate's
offset; the candidate becomes a declaration only when the scan ends with
depth exactly `0` and a non-empty accumulated body (`depth == 0 &&
currentBody.code` in the source).  An unbalanced candidate is silently
discarded: the function returns `none` and no finding of any kind. -/
def buildBody (text kw : List Char) (c : Candidate) : Option BodyDecl :=
  let r := bodyScan (text.drop c.index) 0 0 []
  if r.2.1 = 0 ∧ r.1 ≠ [] then
    some { code := r.1, name := c.name, index := c.index, type := kw, maxDepth := r.2.2 }
  else none

/-- `extractBodies text type`: candidates, filtered through the
brace-balance scan. -/
def extractBodies (text kw : List Char) : List BodyDecl :=
  (findDecs kw text).filterMap (buildBody text kw)

/-- `extractFunctions`. -/
def extractFunctions (text : List Char) : List BodyDecl :=
  extractBodies text "func".toList

/-- `extractTypes`: the three container keywords, evaluated independently
and concatenated. -/
def extractTypes (text : List Char) : List BodyDecl :=
  extractBodies text "enum".toList ++ extractBodies text "struct".toList ++
    extractBodies text "class".toList

/-! ## Parameter extractor (`getFunctionParameters`) -/

/-- The zero-parameter test `/^func\s+\w+\s*\(\s*\)/` on a declaration's
code.  All quantified classes are disjoint from what follows them, so the
greedy parse is deterministic: `func`, one or more whitespace, one or more
word characters, optional whitespace, `(`, optional whitespace, `)`. -/
def zeroParamTest (code : List Char) : Bool :=
  if prefixAt "func".toList code 0 then
    let ws := runLen jsSpace code 4
    if ws = 0 then false
    else
      let nm := runLen wordChar code (4 + ws)
      if nm = 0 then false
      else
        let p := 4 + ws + nm
        let ws2 := runLen jsSpace code p
        if code[p + ws2]? = some '(' then
          let ws3 := runLen jsSpace code (p + ws2 + 1)
          code[p + ws2 + 1 + ws3]? = some ')'
        else false
  else false

/-- The capture of `/^func\s+\w+(.*?)\{/` on a declaration's code: `func`,
whitespace, the name (a maximal word run), then the lazily captured group,
which extends to the first `{` reachable without crossing a newline
(`.` does not match `\n` in JavaScript).  Returns the captured group, or
`none` when the regex does not match (then `getFunctionParameters` leaves
`paramCount` and `params` undefined).  Backtracking into `\w+` or `\s+`
cannot recover from a newline between the name and the first `{`, so this
deterministic reading is exact. -/
def paramInfoCapture (code : List Char) : Option (List Char) :=
  if prefixAt "func".toList code 0 then
    let ws := runLen jsSpace code 4
    if ws = 0 then none
    else
      let nm := runLen wordChar code (4 + ws)
      if nm = 0 then none
      else
        let q := 4 + ws + nm
        let grp := runLen (fun c => ¬(c = '\x7b' ∨ c = '\n')) code q
        if code[q + grp]? = some '\x7b' then some (slice code q grp) else none
  else none

/-- The character loop of `getFunctionParameters` over `functionInfo`,
started at the first `(`: depth goes up on `(` and down on `)`; a comma
seen at depth exactly `1` is one more parameter; the loop breaks, recording
the end offset, the first time the depth is `0` after a character.  When
the characters run out first, the end offset keeps its initial JavaScript
value `-1`.  Arguments: remaining characters, current offset, depth, count;
result: (final count, final `paramEndIndex`). -/
def paramLoop : List Char → Nat → Int → Nat → Nat × Int
  | [], _, _, count => (count, -1)
  | c :: rest, pos, depth, count =>
    let d1 := if c = '(' then depth + 1 else depth
    let d2 := if c = ')' then d1 - 1 else d1
    let count' := if d2 = 1 ∧ c = ',' then count + 1 else count
    if d2 = 0 then (count', (pos : Int) + 1)
    else paramLoop rest (pos + 1) d2 count'

/-- `getFunctionParameters`: sets `paramCount` and `params` on a function
declaration.  When `functionInfo` contains no `(`, the JavaScript loop
starts at index `-1`, reads the empty string `charAt(-1)`, immediately
breaks with `paramEndIndex = 0`, and `substring(0, -1)` clamps to the
empty string: `paramCount = 1`, `params = ""`. -/
def getFunctionParameters (f : BodyDecl) : BodyDecl :=
  if zeroParamTest f.code then
    { f with paramCount := some 0, params := ParamsVal.null }
  else
    match paramInfoCapture f.code with
    | none => f
    | some info =>
      match idxOf info '(' with
      | none => { f with paramCount := some 1, params := ParamsVal.str [] }
      | some k =>
        let r := paramLoop (info.drop k) k 0 1
        { f with
            paramCount := some r.1,
            params := ParamsVal.str (jsSubstring info ((k : Int) + 1) (r.2 - 1)) }

/-! ## Binding extraction and the naming check -/

/-- `getVariablesFromTuples`: every `\w+` match inside `tuple` becomes a
variable positioned relative to `tupleIndex`.  The `exec` loop on `/\w+/g`
yields exactly the maximal word runs of the string. -/
def getVariablesFromTuples (tuple : List Char) (tupleIndex : Nat) (si : Bool) :
    List VarInfo :=
  go (tuple.length + 2) 0
where
  go : Nat → Nat → List VarInfo
    | 0, _ => []
    | fuel + 1, p =>
      if p ≥ tuple.length then []
      else
        if wordChar (tuple.getD p ' ') then
          let len := runLen wordChar tuple p
          ⟨slice tuple p len, si, p + tupleIndex⟩ :: go fuel (p + len)
        else go fuel (p + 1)

/-- The shape `/^_?(?:[a-z][A-Za-z0-9]*|[A-Z0-9]+)$/` (the source variable
`immutableTest`, applied to bindings that are NOT static-immutable):
optionally one leading underscore, then either a lowercase letter followed
by alphanumerics, or one or more capitals/digits. -/
def immutableTest (name : List Char) : Bool :=
  let core : List Char → Bool := fun s =>
    (match s with
     | c :: rest => c.isLower && rest.all (fun x => x.isAlpha || x.isDigit)
     | [] => false) ||
    (!s.isEmpty && s.all (fun x => x.isUpper || x.isDigit))
  match name with
  | '_' :: rest => core rest
  | s => core s

/-- The shape `/^_?[A-Za-z][A-Za-z0-9]*$/` (the source variable
`mutableTest`, applied to static-immutable bindings): optionally one
leading underscore, then a letter followed by alphanumerics. -/
def mutableTest (name : List Char) : Bool :=
  let core : List Char → Bool := fun s =>
    match s with
    | c :: rest => c.isAlpha && rest.all (fun x => x.isAlpha || x.isDigit)
    | [] => false
  match name with
  | '_' :: rest => core rest
  | s => core s

/-- Message of the too-short length check. -/
def tooShortMsg : String := "Variable names should be at least three characters long."

/-- Message of the too-long length check. -/
def tooLongMsg : String := "Variable names should not be more than 40 characters long."

/-- Message of the shape check for non-static-immutable bindings. -/
def mutableShapeMsg : String :=
  "Variable names should only contain alphanumeric characters. " ++
  "Mutable variable names should either start with a lowercase letter " ++
  "or only contain capital letters."

/-- Message of the shape check for static-immutable bindings. -/
def immutableShapeMsg : String :=
  "Variable names should only contain alphanumeric characters."

/-- `testVariableName`: length checks first (short below 3, escalating to
error below 2; long above 40, escalating above 60), then the shape test —
`immutableTest` for bindings that are not static-immutable and
`mutableTest` for static-immutable ones, exactly as in the source. -/
def testVariableName (v : VarInfo) : Option RawFinding :=
  if v.name.length < 3 then
    some ⟨v.name, v.index,
      (if v.name.length < 2 then Severity.error else Severity.warning), tooShortMsg⟩
  else if v.name.length > 40 then
    some ⟨v.name, v.index,
      (if v.name.length > 60 then Severity.error else Severity.warning), tooLongMsg⟩
  else if !v.staticImmutable then
    if !immutableTest v.name then
      some ⟨v.name, v.index, Severity.warning, mutableShapeMsg⟩
    else none
  else
    if !mutableTest v.name then
      some ⟨v.name, v.index, Severity.warning, immutableShapeMsg⟩
    else none

/-! ## Function-based rules -/

/-- The uniform shape of the function- and type-based rules.  In the
source each rule is a two-parameter `function(text, structures)`; the
extra `opts` and `cm` arguments passed by `applyRuleBuilder` are dropped
at the call boundary (JavaScript ignores surplus arguments), so they do
not appear here.  The first argument models the module-level
`LINE_NUMBERS` global that `lineLengthRule` reads. -/
def LintRule : Type :=
  List Nat → List Char → List BodyDecl → List RawFinding

/-- The keyword regex `/\b(if|func|while|for|guard|case|switch|fallthrough)\b/g`
of `cyclomaticComplexityRule`. -/
def keyRegex : RE :=
  RE.seq RE.wb (RE.seq
    (RE.altList [RE.lit "if".toList, RE.lit "func".toList, RE.lit "while".toList,
      RE.lit "for".toList, RE.lit "guard".toList, RE.lit "case".toList,
      RE.lit "switch".toList, RE.lit "fallthrough".toList])
    RE.wb)

/-- Number of matches of `keyRegex` in `body` whose matched text is `kw`
(the per-keyword tally of the `keywordCount` object). -/
def keywordCount (body kw : List Char) : Nat :=
  ((execAll keyRegex body).filter (fun m => slice body m.1 m.2 = kw)).length

/-- The complexity computed for one function body: the summed counts of
`if`, `func`, `while`, `for`, `guard`, plus `case` minus `fallthrough`
when a `switch` is present and that difference is positive. -/
def complexityOf (body : List Char) : Nat :=
  let base := keywordCount body "if".toList + keywordCount body "func".toList +
    keywordCount body "while".toList + keywordCount body "for".toList +
    keywordCount body "guard".toList
  if keywordCount body "switch".toList > 0 then
    let sc : Int := (keywordCount body "case".toList : Int) -
      (keywordCount body "fallthrough".toList : Int)
    if sc > 0 then base + sc.toNat else base
  else base

/-- Message of `cyclomaticComplexityRule`. -/
def cycloMessage (name : List Char) (comp : Nat) : String :=
  "Cyclomatic complexity should have complexity of 10 or less; " ++
  "the current complexity of the function " ++ String.mk name ++ " is " ++
  toString comp ++ "."

/-- The finding `cyclomaticComplexityRule` pushes for one function: one
when the complexity is above 10, severity escalating above 20. -/
def complexityFinding (f : BodyDecl) : Option RawFinding :=
  let comp := complexityOf f.code
  if comp > 10 then
    some ⟨f.code, f.index,
      (if comp > 20 then Severity.error else Severity.warning),
      cycloMessage f.name comp⟩
  else none

/-- `cyclomaticComplexityRule`. -/
def cyclomaticComplexityRule : LintRule :=
  fun _ _ functions => functions.filterMap complexityFinding

/-- `functionBodyLengthRule`: warn above 40 lines, error above 100. -/
def functionBodyLengthRule : LintRule :=
  fun _ _ functions =>
    functions.filterMap (fun f =>
      let n := (splitLines f.code).length
      if n > 40 then
        some ⟨f.code, f.index,
          (if n > 100 then Severity.error else Severity.warning),
          "Functions bodies should not span too many lines. The function " ++
            String.mk f.name ++ " currently has " ++ toString n ++ " lines."⟩
      else none)

/-- `functionParameterCountRule`: warn above 5 parameters, error above 8.
An undefined `paramCount` fails the `> 5` comparison in JavaScript. -/
def functionParameterCountRule : LintRule :=
  fun _ _ functions =>
    functions.filterMap (fun f =>
      match f.paramCount with
      | none => none
      | some n =>
        if n > 5 then
          some ⟨f.code, f.index,
            (if n > 8 then Severity.error else Severity.warning),
            "Number of function parameters should be low. The function " ++
              String.mk f.name ++ " currently has " ++ toString n ++ " parameters."⟩
        else none)

/-- Message of `lineLengthRule` for a line of `n` characters. -/
def lineLenMessage (n : Nat) : String :=
  "Lines should not span too many characters. This line currently has " ++
    toString n ++ " characters."

/-- The loop of `lineLengthRule` over the split lines, carrying the line
index.  The finding offset is `LINE_NUMBERS[i]`; in every use the index is
in range because the rule runs on the same text the line numbers were
built from. -/
def lineLengthFindings (ln : List Nat) : List (List Char) → Nat → List RawFinding
  | [], _ => []
  | l :: ls, i =>
    (if l.length > 100 then
      [⟨l, ln.getD i 0,
        (if l.length > 200 then Severity.error else Severity.warning),
        lineLenMessage l.length⟩]
    else []) ++ lineLengthFindings ln ls (i + 1)

/-- `lineLengthRule`: lines above 100 characters warn, above 200 error.
It ignores the structures argument (the source signature is
`lineLengthRule(text)`). -/
def lineLengthRule : LintRule :=
  fun ln text _ => lineLengthFindings ln (splitLines text) 0

/-- `nestingFuncRule`: warn (only) above depth 5. -/
def nestingFuncRule : LintRule :=
  fun _ _ functions =>
    functions.filterMap (fun f =>
      if f.maxDepth > 5 then
        some ⟨f.code, f.index, Severity.warning,
          "Functions should not be nested more than five levels deep. " ++
            "The function " ++ String.mk f.name ++ " has a maximum depth of " ++
            toString f.maxDepth ++ " levels."⟩
      else none)

/-- One match of the declaration regex
`/(static)?\s*(var|let)\s+(?:(\w+)|\(((?:\w+(?:\,\s+)?)+)\))/g`:
`single` is capture group 3 and `tuple` capture group 4. -/
structure VarMatch where
  index : Nat
  endPos : Nat
  hasStatic : Bool
  isLet : Bool
  single : List Char := []
  tuple : Option (List Char) := none
  deriving DecidableEq, Repr

/-- The tuple group `(?:\w+(?:\,\s+)?)+` starting at `q` (after the open
paren): each iteration is a non-empty word run, optionally followed by a
comma and at least one whitespace character, which is consumed whenever
present (if the following word run is absent the repetition simply stops
after the consumed separator, exactly as the backtracking engine does:
declining the optional separator would require `)` to appear at the comma,
which never succeeds).  Returns the end offset of the group, or `none` if
even the first word run is empty. -/
def tupleGroupEnd (t : List Char) (q : Nat) : Option Nat :=
  go (t.length + 2) q
where
  go : Nat → Nat → Option Nat
    | 0, _ => none
    | fuel + 1, q =>
      let w := runLen wordChar t q
      if w = 0 then none
      else
        let q' := q + w
        if t[q']? = some ',' then
          let s := runLen jsSpace t (q' + 1)
          if s = 0 then some q'
          else
            match go fuel (q' + 1 + s) with
            | some e => some e
            | none => some (q' + 1 + s)
        else some q'

/-- One attempt of the declaration regex at offset `p`.  The optional
`(static)?` is committed when present: if the rest then fails, the retry
without it would need `var`/`let` to start at the letter `s`, which always
fails, so no match is lost.  The quantified classes `\s*`, `\s+`, `\w+`
are disjoint from what follows them, making the remaining parse
deterministic. -/
def matchVarAt (t : List Char) (p : Nat) : Option VarMatch :=
  let hasStatic := prefixAt "static".toList t p
  let p1 := if hasStatic then p + 6 else p
  let p2 := p1 + runLen jsSpace t p1
  let kwVar := prefixAt "var".toList t p2
  let kwLet := prefixAt "let".toList t p2
  if kwVar ∨ kwLet then
    let p3 := p2 + 3
    let ws := runLen jsSpace t p3
    if ws = 0 then none
    else
      let p4 := p3 + ws
      let w := runLen wordChar t p4
      if w > 0 then
        some { index := p, endPos := p4 + w, hasStatic := hasStatic, isLet := kwLet,
               single := slice t p4 w }
      else if t[p4]? = some '(' then
        match tupleGroupEnd t (p4 + 1) with
        | none => none
        | some e =>
          if t[e]? = some ')' then
            some { index := p, endPos := e + 1, hasStatic := hasStatic, isLet := kwLet,
                   tuple := some (slice t (p4 + 1) (e - (p4 + 1))) }
          else none
      else none
  else none

/-- The `exec` loop of the declaration regex over the whole text. -/
def execVariableRegex (t : List Char) : List VarMatch :=
  go (t.length + 2) 0
where
  go : Nat → Nat → List VarMatch
    | 0, _ => []
    | fuel + 1, p =>
      if p > t.length then []
      else
        match matchVarAt t p with
        | some m => m :: go fuel m.endPos
        | none => go fuel (p + 1)

/-- The string `RegExp.exec` actually scans when handed a declaration's
`params` field: `null` and `undefined` are coerced to the strings
`"null"` and `"undefined"`. -/
def paramsScanString : ParamsVal → List Char
  | ParamsVal.str s => s
  | ParamsVal.null => "null".toList
  | ParamsVal.undef => "undefined".toList

/-- `variableNameRule`: collect every declared binding (a static `let` is
constant-eligible; tuples are exploded; one leading underscore is stripped
with the offset advanced by one; the binding offset is recovered with
`indexOf` from the match offset), add every function's parameter list run
through the same tuple explosion as non-constant-eligible, and test each
collected name with `testVariableName`. -/
def variableNameRule : LintRule :=
  fun _ text functions =>
    let fromText := (execVariableRegex text).foldl (fun acc m =>
      let si := m.hasStatic && m.isLet
      let matchText := match m.tuple with
        | some tt => tt
        | none => m.single
      let varIndex : Int := jsIndexOf (text.drop m.index) matchText + (m.index : Int)
      let stripped := matchText.head? = some '_'
      let matchText' := if stripped then matchText.tail else matchText
      let varIndex' := if stripped then varIndex + 1 else varIndex
      match m.tuple with
      | some _ => acc ++ getVariablesFromTuples matchText' varIndex'.toNat si
      | none => acc ++ [⟨matchText', si, varIndex'.toNat⟩]) []
    let allVariables := functions.foldl (fun acc f =>
      let paramsIndex := f.index + (jsIndexOf f.code ['('] + 1).toNat
      acc ++ getVariablesFromTuples (paramsScanString f.params) paramsIndex false) fromText
    allVariables.filterMap testVariableName

/-- `allFunctionRules`, in source order. -/
def allFunctionRules : List LintRule :=
  [cyclomaticComplexityRule, functionBodyLengthRule, functionParameterCountRule,
   lineLengthRule, nestingFuncRule, variableNameRule]

/-! ## Type-based rules -/

/-- `nestingTypeRule`: types nested above one level warn. -/
def nestingTypeRule : LintRule :=
  fun _ _ types =>
    types.filterMap (fun t =>
      if t.maxDepth > 1 then
        some ⟨t.code, t.index, Severity.warning,
          "Types should not be nested more than one level deep. The " ++
            String.mk t.type ++ " " ++ String.mk t.name ++ " has a maximum depth of " ++
            toString t.maxDepth ++ " levels."⟩
      else none)

/-- `typeBodyLengthRule`: warn above 200 lines, error above 350. -/
def typeBodyLengthRule : LintRule :=
  fun _ _ types =>
    types.filterMap (fun t =>
      let n := (splitLines t.code).length
      if n > 200 then
        some ⟨t.code, t.index,
          (if n > 350 then Severity.error else Severity.warning),
          "Type bodies should not span too many lines. The " ++ String.mk t.type ++
            " " ++ String.mk t.name ++ " currently has " ++ toString n ++ " lines."⟩
      else none)

/-- The name test `/^[A-Z][A-Za-z0-9]{2,39}$/` of `typeNameRule`. -/
def typeNameOk (name : List Char) : Bool :=
  match name with
  | c :: rest =>
    c.isUpper && rest.all (fun x => x.isAlpha || x.isDigit) &&
      2 ≤ rest.length && rest.length ≤ 39
  | [] => false

/-- The `exec` loop of `/typealias\s+(\w+)/g` (no word-boundary
requirement in the source pattern): `typealias`, at least one whitespace
character, a maximal word run.  Each alias is recorded with the full match
as `code` and the captured name, as a `BodyDecl` whose remaining fields
are unused dummies (the source pushes a plain `{code, index, name}`
object). -/
def execTypealias (t : List Char) : List BodyDecl :=
  go (t.length + 2) 0
where
  go : Nat → Nat → List BodyDecl
    | 0, _ => []
    | fuel + 1, p =>
      if p > t.length then []
      else
        if prefixAt "typealias".toList t p then
          let ws := runLen jsSpace t (p + 9)
          if ws = 0 then go fuel (p + 1)
          else
            let nm := runLen wordChar t (p + 9 + ws)
            if nm = 0 then go fuel (p + 1)
            else
              { code := slice t p (9 + ws + nm), name := slice t (p + 9 + ws) nm,
                index := p, type := [], maxDepth := 0 } :: go fuel (p + 9 + ws + nm)
        else go fuel (p + 1)

/-- Message of `typeNameRule`. -/
def typeNameMessage : String :=
  "Type names should contain only alphanumeric characters, begin with an " ++
  "uppercase letter and span between 3 and 40 characters in length."

/-- `typeNameRule`: validates the names of all extracted types plus all
`typealias` declarations. -/
def typeNameRule : LintRule :=
  fun _ text types =>
    (types ++ execTypealias text).filterMap (fun t =>
      if typeNameOk t.name then none
      else some ⟨t.code, t.index, Severity.warning, typeNameMessage⟩)

/-- `allTypeRules`, in source order. -/
def allTypeRules : List LintRule :=
  [nestingTypeRule, typeBodyLengthRule, typeNameRule]

/-! ## Regex-based rules

Each rule is a record of patterns, optional exception patterns, a severity
and a message.  The patterns are direct transcriptions of the source
regexes into `RE`. -/

/-- A regex-based rule (`{rePatterns, exceptions?, severity, message}`). -/
structure RegexRule where
  rePatterns : List RE
  exceptions : List RE := []
  severity : Severity
  message : String

/-- Single character pattern. -/
def chP (c : Char) : RE := RE.cls (fun x => x = c)

/-- Whitespace character pattern (`\s`). -/
def spP : RE := RE.cls jsSpace

/-- Non-whitespace character pattern (`\S`). -/
def nonSpP : RE := RE.cls (fun c => !jsSpace c)

/-- Non-newline character pattern (`[^\n]`, the JS `.`). -/
def notNlP : RE := RE.cls (fun c => c ≠ '\n')

/-- The class `[^\S\n]`: whitespace other than newline. -/
def spNotNlP : RE := RE.cls (fun c => jsSpace c && c ≠ '\n')

/-- `closingBraceRule`: `/\}[ \t]+\)/`. -/
def closingBraceRule : RegexRule where
  rePatterns :=
    [RE.seq (chP '\x7d')
      (RE.seq (RE.plusG (RE.cls (fun c => c = ' ' || c = '\t'))) (chP ')'))]
  severity := Severity.warning
  message := "Closing brace with closing parenthesis should not have any " ++
    "whitespace in the middle."

/-- `colonRule`: `/(\w)(?:\s+:\s*|:(?:\s{0}))([\[|\(]*\S)/`.  The class
`[\[|\(]` contains the three characters `[`, `|`, `(`; `\s{0}` is the
empty pattern. -/
def colonRule : RegexRule where
  rePatterns :=
    [RE.seq (RE.cls wordChar)
      (RE.seq
        (RE.alt (RE.seq (RE.plusG spP) (RE.seq (chP ':') (RE.starG spP)))
          (chP ':'))
        (RE.seq (RE.starG (RE.cls (fun c => c = '[' || c = '|' || c = '(')))
          nonSpP))]
  severity := Severity.warning
  message := "Colons should be next to the identifier when specifying a type " ++
    "and the type should not be immediately next to the colon."

/-- The class `[\s\t\p{Z}]` of `commaRule`: the regex has no `u` flag, so
`\p` is an identity escape and the class is whitespace plus the literal
characters `p`, `{`, `Z`, `}`. -/
def commaZCls : RE :=
  RE.cls (fun c => jsSpace c || c = 'p' || c = '\x7b' || c = 'Z' || c = '\x7d')

/-- `commaRule`: `/\S(\s+,[\s\t\p{Z}]*|,(?:[\s\t\p{Z}]{0}|[\s\t\p{Z}]{2,}))(\S)/`. -/
def commaRule : RegexRule where
  rePatterns :=
    [RE.seq nonSpP
      (RE.seq
        (RE.alt
          (RE.seq (RE.plusG spP) (RE.seq (chP ',') (RE.starG commaZCls)))
          (RE.seq (chP ',') (RE.alt RE.eps (RE.rep2 commaZCls))))
        nonSpP)]
  severity := Severity.warning
  message := "There should be no space before and one after any comma."

/-- `conditionalReturnsOnNewlineRule`: `/(guard|if)[^\n]*return[^\n]\n*/`. -/
def conditionalReturnsOnNewlineRule : RegexRule where
  rePatterns :=
    [RE.seq (RE.alt (RE.lit "guard".toList) (RE.lit "if".toList))
      (RE.seq (RE.starG notNlP)
        (RE.seq (RE.lit "return".toList) (RE.seq notNlP (RE.starG (chP '\n')))))]
  severity := Severity.warning
  message := "Conditional statements should always return on the next line."

/-- The shared shape `kw\s*\([^,{]*\)\s*...\{` of `controlStatementRule`;
`tailPart` is what stands between the closing parenthesis and the brace. -/
def controlPattern (kw : List Char) (tailPart : RE) : RE :=
  RE.seq (RE.lit kw)
    (RE.seq (RE.starG spP)
      (RE.seq (chP '(')
        (RE.seq (RE.starG (RE.cls (fun c => ¬(c = ',' ∨ c = '\x7b'))))
          (RE.seq (chP ')') (RE.seq (RE.starG spP) (RE.seq tailPart (chP '\x7b')))))))

/-- `controlStatementRule`: five patterns; the `guard` one reads
`guard\s*\([^,{]*\)\s*else\s*\s\{`. -/
def controlStatementRule : RegexRule where
  rePatterns :=
    [controlPattern "guard".toList (RE.seq (RE.lit "else".toList) (RE.seq (RE.starG spP) spP)),
     controlPattern "if".toList RE.eps,
     controlPattern "for".toList RE.eps,
     controlPattern "switch".toList RE.eps,
     controlPattern "while".toList RE.eps]
  severity := Severity.warning
  message := "Conditional statements should not wrap their conditionals " ++
    "in parentheses."

/-- `emptyCountRule`: `/\.count\s*(==|!=|<|<=|>|>=)\s*0/`. -/
def emptyCountRule : RegexRule where
  rePatterns :=
    [RE.seq (RE.lit ".count".toList)
      (RE.seq (RE.starG spP)
        (RE.seq
          (RE.altList [RE.lit "==".toList, RE.lit "!=".toList, RE.lit "<".toList,
            RE.lit "<=".toList, RE.lit ">".toList, RE.lit ">=".toList])
          (RE.seq (RE.starG spP) (chP '0'))))]
  severity := Severity.error
  message := "Prefer checking \x27isEmpty\x27 over comparing \x27count\x27 to zero."

/-- `forceCastRule`: `as!`. -/
def forceCastRule : RegexRule where
  rePatterns := [RE.lit "as!".toList]
  severity := Severity.error
  message := "Force casts should be avoided."

/-- `forceTryRule`: `try!`. -/
def forceTryRule : RegexRule where
  rePatterns := [RE.lit "try!".toList]
  severity := Severity.error
  message := "Force tries should be avoided."

/-- `leadingWhitespaceRule`: `/^[\s]+/`. -/
def leadingWhitespaceRule : RegexRule where
  rePatterns := [RE.seq RE.bol (RE.plusG spP)]
  severity := Severity.warning
  message := "Files should not contain leading whitespace."

/-- The legacy geometry helper names, in source order. -/
def legacyNSGeometryFunctions : List String :=
  ["NSWidth", "NSHeight", "NSMinX", "NSMidX", "NSMaxX", "NSMinY",
   "NSMidY", "NSMaxY", "NSEqualRects", "NSEqualSizes", "NSEqualPoints",
   "NSEdgeInsetsEqual", "NSIsEmptyRect", "NSIntegralRect",
   "NSInsetRect", "NSOffsetRect", "NSUnionRect", "NSIntersectionRect",
   "NSContainsRect", "NSPointInRect", "NSIntersectsRect"]

/-- `legacyNSGeometryFunctionsRule`: `\b(name|…|name)\b`. -/
def legacyNSGeometryFunctionsRule : RegexRule where
  rePatterns :=
    [RE.seq RE.wb
      (RE.seq (RE.altList (legacyNSGeometryFunctions.map (fun s => RE.lit s.toList)))
        RE.wb)]
  severity := Severity.warning
  message := "Struct extension properties and methods are preferred over legacy functions."

/-- `openingBraceRule`: pattern `/((?:[^\( ]|[\s\(][\s]+)\{)/g` with
exception `/(?:if|guard|while)\n[^\{]+?[\s\t\n]\{/g`. -/
def openingBraceRule : RegexRule where
  rePatterns :=
    [RE.seq
      (RE.alt (RE.cls (fun c => ¬(c = '(' ∨ c = ' ')))
        (RE.seq (RE.cls (fun c => jsSpace c || c = '(')) (RE.plusG spP)))
      (chP '\x7b')]
  exceptions :=
    [RE.seq (RE.altList [RE.lit "if".toList, RE.lit "guard".toList, RE.lit "while".toList])
      (RE.seq (chP '\n')
        (RE.seq (RE.plusL (RE.cls (fun c => c ≠ '\x7b')))
          (RE.seq spP (chP '\x7b'))))]
  severity := Severity.warning
  message := "Opening braces should be preceded by a single space and on the same " ++
    "line as the declaration."

/-- `redundantNilCoalescingRule`: `/\?\?\s*nil\b/`. -/
def redundantNilCoalescingRule : RegexRule where
  rePatterns :=
    [RE.seq (RE.lit "??".toList)
      (RE.seq (RE.starG spP) (RE.seq (RE.lit "nil".toList) RE.wb))]
  severity := Severity.warning
  message := "nil coalescing operator is only evaluated if the left hand side is nil; " ++
    "coalescing operator with nil as right hand side is redundant."

/-- The `spaceRegex` class `[ \f\r\t]` of the return-arrow rule. -/
def arrowSpP : RE :=
  RE.cls (fun c => c = ' ' || c = Char.ofNat 12 || c = '\r' || c = '\t')

/-- `incorrectSpaceRegex`: zero or at least two of `arrowSpP`. -/
def incorrectSpaceP : RE := RE.alt RE.eps (RE.rep2 arrowSpP)

/-- `returnArrowWhiteSpaceRule`: `\)(P1|P2|P3|P4)\S+` with the four
assembled arrow patterns. -/
def returnArrowWhiteSpaceRule : RegexRule where
  rePatterns :=
    [RE.seq (chP ')')
      (RE.seq
        (RE.altList
          [RE.seq incorrectSpaceP (RE.seq (RE.lit "->".toList) (RE.starG arrowSpP)),
           RE.seq arrowSpP (RE.seq (RE.lit "->".toList) incorrectSpaceP),
           RE.seq (chP '\n') (RE.seq (RE.starG arrowSpP)
             (RE.seq (RE.lit "->".toList) incorrectSpaceP)),
           RE.seq incorrectSpaceP (RE.seq (RE.lit "->".toList)
             (RE.seq (chP '\n') (RE.starG arrowSpP)))])
        (RE.plusG nonSpP))]
  severity := Severity.warning
  message := "Return arrow and return type should be separated by a single space or on a " ++
    "separate line."

/-- `trailingNewlineRule`: `/[^\n]+$|\n{2,}$/` (without the `m` flag, `$`
matches only at the very end of the string). -/
def trailingNewlineRule : RegexRule where
  rePatterns :=
    [RE.alt (RE.seq (RE.plusG notNlP) RE.eos) (RE.seq (RE.rep2 (chP '\n')) RE.eos)]
  severity := Severity.warning
  message := "Files should have a single trailing newline."

/-- `trailingSemicolonRule`: `/;\n|;$/`. -/
def trailingSemicolonRule : RegexRule where
  rePatterns := [RE.alt (RE.seq (chP ';') (chP '\n')) (RE.seq (chP ';') RE.eos)]
  severity := Severity.warning
  message := "Lines should not end with a trailing semicolon."

/-- `trailingWhitespaceRule`: `/[^\S\n](?:\n|$)/`. -/
def trailingWhitespaceRule : RegexRule where
  rePatterns := [RE.seq spNotNlP (RE.alt (chP '\n') RE.eos)]
  severity := Severity.warning
  message := "Lines should not end with trailing whitespace."

/-- `verticalWhitespaceRule`: `/\n(?:[^\S\n]*\n){2,}/`. -/
def verticalWhitespaceRule : RegexRule where
  rePatterns := [RE.seq (chP '\n') (RE.rep2 (RE.seq (RE.starG spNotNlP) (chP '\n')))]
  severity := Severity.warning
  message := "Vertical whitespace should not be longer than one line."

/-- `allRegexRules`, in source order. -/
def allRegexRules : List RegexRule :=
  [closingBraceRule, colonRule, commaRule, conditionalReturnsOnNewlineRule,
   controlStatementRule, emptyCountRule, forceCastRule, forceTryRule,
   leadingWhitespaceRule, legacyNSGeometryFunctionsRule, openingBraceRule,
   redundantNilCoalescingRule, returnArrowWhiteSpaceRule, trailingNewlineRule,
   trailingSemicolonRule, trailingWhitespaceRule, verticalWhitespaceRule]

/-- `processExceptions`: the ranges matched by a rule's exception
patterns. -/
def processExceptions (text : List Char) (exceptions : List RE) : List ERange :=
  exceptions.foldl (fun acc re =>
    acc ++ (execAll re text).map (fun m => ⟨m.1, m.1 + m.2⟩)) []

/-- `regexException`: does the match offset fall inside one of the
exception ranges (`range.start <= matchIndex && range.end > matchIndex`)? -/
def regexException (matchIndex : Nat) : List ERange → Bool
  | [] => false
  | r :: rest =>
    if r.start ≤ matchIndex ∧ r.endPos > matchIndex then true
    else regexException matchIndex rest

/-- `regexRule`: run every pattern of the rule over the text and keep the
matches whose offset is not covered by an exception range. -/
def regexRule (text : List Char) (rule : RegexRule) : List RawFinding :=
  let exceptionRanges := processExceptions text rule.exceptions
  rule.rePatterns.foldl (fun acc re =>
    acc ++ (execAll re text).filterMap (fun m =>
      if regexException m.1 exceptionRanges then none
      else some ⟨slice text m.1 m.2, m.1, rule.severity, rule.message⟩)) []

/-! ## Diagnostic aggregation and the entry point -/

/-- Resolution of one raw finding: both the start offset and the end
offset (start plus matched-text length) must resolve through
`getLinePos`; otherwise the finding is dropped (`!errPos || !errPosEnd`
in the source). -/
def resolveFinding (ln : List Nat) (tlen : Nat) (e : RawFinding) : Option Diagnostic :=
  match getLinePos ln tlen e.index, getLinePos ln tlen (e.index + e.code.length) with
  | some p1, some p2 => some ⟨e.severity, e.message, p1, p2⟩
  | _, _ => none

/-- `processRawErrors`: the loop over raw findings, skipping (with
`continue`) every finding that fails resolution and keeping the rest in
order. -/
def processRawErrors (ln : List Nat) (tlen : Nat) : List RawFinding → List Diagnostic
  | [] => []
  | e :: rest =>
    match resolveFinding ln tlen e with
    | none => processRawErrors ln tlen rest
    | some d => d :: processRawErrors ln tlen rest

/-- The closure returned by `applyRuleBuilder`: apply one rule to the text
and pre-built structures, resolve its raw findings and append them to the
accumulated list.  The `opts` and `cm` values captured by the source
closure are passed on to the rule, which drops them (every rule declares
only `(text, structures)`). -/
def applyRule (ln : List Nat) (tlen : Nat) (text : List Char)
    (structures : List BodyDecl) (foundErrors : List Diagnostic)
    (rule : LintRule) : List Diagnostic :=
  foundErrors ++ processRawErrors ln tlen (rule ln text structures)

/-- `swiftLint`, the entry point: build the line-number index, extract
functions (enriching each with its parameters) and types, then apply the
regex-based, function-based and type-based rule families in order,
appending the resolved diagnostics of each rule.  The `opts` and `cm`
arguments are the caller-supplied options and editor objects; they are
passed to `applyRuleBuilder` in the source and never read by any rule, so
their types are arbitrary here. -/
def swiftLint (Opts CM : Type) (text : List Char) (opts : Opts) (cm : CM) :
    List Diagnostic :=
  let ln := obtainLineNumbers text
  let tlen := text.length
  let allFunctions := (extractFunctions text).map getFunctionParameters
  let allTypes := extractTypes text
  let afterRegex := allRegexRules.foldl
    (fun acc rule => acc ++ processRawErrors ln tlen (regexRule text rule)) []
  let afterFunc := allFunctionRules.foldl
    (fun acc rule => applyRule ln tlen text allFunctions acc rule) afterRegex
  allTypeRules.foldl
    (fun acc rule => applyRule ln tlen text allTypes acc rule) afterFunc

/-! ## Theorems -/

theorem splitLines_ne_nil (t : List Char) : splitLines t ≠ [] := by
  match t with
  | [] => simp [splitLines]
  | c :: rest =>
    rw [splitLines]
    by_cases hc : c = '\n'
    · simp [hc]
    · rw [if_neg hc]
      match hs : splitLines rest with
      | [] => simp
      | l :: ls => simp

theorem getLinePosGo_total (ln : List Nat) (tlen index : Nat) :
    ∀ (fuel i : Nat), ln.length - i < fuel → i < ln.length →
      ln.getD i 0 ≤ index → index ≤ tlen →
      ∃ l c, getLinePosGo ln tlen index fuel i = some ⟨l, c⟩ ∧
        ln.getD l 0 + c = index := by
  intro fuel
  induction fuel with
  | zero => intro i hfuel hi _ _; omega
  | succ n ih =>
    intro i hfuel hi hge hle
    rw [getLinePosGo, if_pos hi, if_neg (by omega)]
    by_cases heq : index = ln.getD i 0
    · rw [if_pos heq]
      exact ⟨i, index - ln.getD i 0, rfl, by omega⟩
    · rw [if_neg heq]
      by_cases hlast : i = ln.length - 1 ∧ index ≤ tlen
      · rw [if_pos hlast]
        exact ⟨i, index - ln.getD i 0, rfl, by omega⟩
      · rw [if_neg hlast]
        have hi1 : i + 1 < ln.length := by
          rcases Decidable.em (i = ln.length - 1) with h | h
          · exact absurd ⟨h, hle⟩ hlast
          · omega
        by_cases hnext : index < ln.getD (i + 1) 0
        · match n, (by omega : 1 ≤ n) with
          | n' + 1, _ =>
            rw [getLinePosGo, if_pos hi1, if_pos hnext, if_neg (by omega)]
            exact ⟨i + 1 - 1, index - ln.getD (i + 1 - 1) 0, rfl, by
              simp only [Nat.add_sub_cancel]
              omega⟩
        · exact ih (i + 1) (by omega) hi1 (by omega) hle

theorem obtainLineNumbers_ne_nil (text : List Char) :
    obtainLineNumbers text ≠ [] := by
  rw [obtainLineNumbers]
  match hs : splitLines text with
  | [] => exact absurd hs (splitLines_ne_nil text)
  | l :: ls => simp [lineStartsFrom]

theorem obtainLineNumbers_head (text : List Char) :
    (obtainLineNumbers text).getD 0 0 = 0 := by
  rw [obtainLineNumbers]
  match hs : splitLines text with
  | [] => exact absurd hs (splitLines_ne_nil text)
  | l :: ls => simp [lineStartsFrom]

/-- C6.  For every input text and every offset `o` with
`0 ≤ o ≤ length text`, resolving `o` through the position index built by
`obtainLineNumbers` succeeds (it is not unresolved), and the resulting
`(line, col)` pair satisfies `lineStart(line) + col = o`: the round trip
reconstructs the offset. -/
theorem c6_round_trip_offsets (text : List Char) (o : Nat) (h : o ≤ text.length) :
    ∃ l c, getLinePos (obtainLineNumbers text) text.length o = some ⟨l, c⟩ ∧
      (obtainLineNumbers text).getD l 0 + c = o := by
  have h0 : 0 < (obtainLineNumbers text).length :=
    List.length_pos.mpr (obtainLineNumbers_ne_nil text)
  exact getLinePosGo_total (obtainLineNumbers text) text.length o
    ((obtainLineNumbers text).length + 1) 0 (by omega) h0
    (by rw [obtainLineNumbers_head]; omega) h

/-- Witness for C6 at the concrete text `"ab\ncd"` and offset `4`. -/
theorem c6_round_trip_offsets_witness :
    4 ≤ ("ab\ncd".toList).length ∧
      ∃ l c, getLinePos (obtainLineNumbers "ab\ncd".toList) "ab\ncd".toList.length 4 =
          some ⟨l, c⟩ ∧
        (obtainLineNumbers "ab\ncd".toList).getD l 0 + c = 4 :=
  ⟨by decide, c6_round_trip_offsets "ab\ncd".toList 4 (by decide)⟩

/-- Signed brace weight of a character. -/
def braceWeight (c : Char) : Int :=
  if c = '\x7b' then 1 else if c = '\x7d' then -1 else 0

/-- Net brace depth of a string: opening braces count `+1`, closing
braces `-1`.  A string is brace-balanced (its depth profile returns to
exactly `0` at its end) iff this is `0`. -/
def braceDepth (s : List Char) : Int := (s.map braceWeight).sum

theorem braceDepth_append (a b : List Char) :
    braceDepth (a ++ b) = braceDepth a + braceDepth b := by
  simp [braceDepth]

theorem braceDepth_braceFree (q : List Char)
    (h : ∀ c ∈ q, c ≠ '\x7b' ∧ c ≠ '\x7d') : braceDepth q = 0 := by
  apply List.sum_eq_zero
  intro x hx
  rcases List.mem_map.mp hx with ⟨c, hc, hw⟩
  obtain ⟨h1, h2⟩ := h c hc
  simp [braceWeight, h1, h2] at hw
  omega

theorem braceDepth_chunk (pre : List Char) (b : Char) (q : List Char)
    (hq : pre = q ++ [b]) (hfree : ∀ c ∈ q, c ≠ '\x7b' ∧ c ≠ '\x7d') :
    braceDepth pre = braceWeight b := by
  subst hq
  rw [braceDepth_append, braceDepth_braceFree q hfree]
  simp [braceDepth]

theorem bodyScanGo_eq_none (fuel : Nat) (s : List Char) (depth maxD : Int)
    (code : List Char) (hsplit : splitAtBrace s = none) :
    bodyScanGo (fuel + 1) s depth maxD code = (code, depth, maxD) := by
  rw [bodyScanGo, hsplit]

theorem bodyScanGo_eq_some (fuel : Nat) (s pre : List Char) (b : Char)
    (rest : List Char) (depth maxD : Int) (code : List Char)
    (hsplit : splitAtBrace s = some (pre, b, rest)) :
    bodyScanGo (fuel + 1) s depth maxD code =
      (if (if b = '\x7b' then depth + 1 else depth - 1) ≤ 0 then
        (code ++ pre, (if b = '\x7b' then depth + 1 else depth - 1),
          (if (if b = '\x7b' then depth + 1 else depth - 1) > maxD
            then (if b = '\x7b' then depth + 1 else depth - 1) else maxD))
      else bodyScanGo fuel rest (if b = '\x7b' then depth + 1 else depth - 1)
        (if (if b = '\x7b' then depth + 1 else depth - 1) > maxD
          then (if b = '\x7b' then depth + 1 else depth - 1) else maxD) (code ++ pre)) := by
  rw [bodyScanGo, hsplit]

theorem bodyScanGo_depth : ∀ (fuel : Nat) (s : List Char), s.length < fuel →
    ∀ (depth maxD : Int) (code : List Char), braceDepth code = depth →
    braceDepth (bodyScanGo fuel s depth maxD code).1 =
      (bodyScanGo fuel s depth maxD code).2.1 := by
  intro fuel
  induction fuel with
  | zero => intro s hs; omega
  | succ n ih =>
    intro s hs depth maxD code h
    rcases hsp : splitAtBrace s with _ | ⟨pre, b, rest⟩
    · rw [bodyScanGo_eq_none n s depth maxD code hsp]
      exact h
    · obtain ⟨hlen, q, hq, hfree, hb⟩ := splitAtBrace_spec s pre b rest hsp
      have hdep : braceDepth (code ++ pre) =
          (if b = '\x7b' then depth + 1 else depth - 1) := by
        rw [braceDepth_append, h, braceDepth_chunk pre b q hq hfree]
        rcases hb with hb | hb <;> simp [braceWeight, hb] <;> omega
      rw [bodyScanGo_eq_some n s pre b rest depth maxD code hsp]
      set d' := (if b = '\x7b' then depth + 1 else depth - 1) with hd'
      split
      · exact hdep
      · exact ih rest (by omega) _ _ _ hdep

theorem bodyScanGo_maxD_mono : ∀ (fuel : Nat) (s : List Char), s.length < fuel →
    ∀ (depth maxD : Int) (code : List Char),
    maxD ≤ (bodyScanGo fuel s depth maxD code).2.2 := by
  intro fuel
  induction fuel with
  | zero => intro s hs; omega
  | succ n ih =>
    intro s hs depth maxD code
    rcases hsp : splitAtBrace s with _ | ⟨pre, b, rest⟩
    · rw [bodyScanGo_eq_none n s depth maxD code hsp]
    · have hlen := (splitAtBrace_spec s pre b rest hsp).1
      rw [bodyScanGo_eq_some n s pre b rest depth maxD code hsp]
      set d' := (if b = '\x7b' then depth + 1 else depth - 1) with hd'
      have hstep : maxD ≤ (if d' > maxD then d' else maxD) := by
        split <;> omega
      split
      · exact hstep
      · exact le_trans hstep (ih rest (by omega) _ _ _)

theorem bodyScan_depth (s : List Char) (depth maxD : Int) (code : List Char)
    (h : braceDepth code = depth) :
    braceDepth (bodyScan s depth maxD code).1 = (bodyScan s depth maxD code).2.1 :=
  bodyScanGo_depth (s.length + 1) s (by omega) depth maxD code h

theorem bodyScan_valid_maxD (s : List Char)
    (h0 : (bodyScan s 0 0 []).2.1 = 0) (hne : (bodyScan s 0 0 []).1 ≠ []) :
    1 ≤ (bodyScan s 0 0 []).2.2 := by
  rw [bodyScan] at h0 hne ⊢
  rcases hsp : splitAtBrace s with _ | ⟨pre, b, rest⟩
  · rw [bodyScanGo_eq_none s.length s 0 0 [] hsp] at hne
    exact absurd rfl hne
  · obtain ⟨hlen, q, hq, hfree, hb⟩ := splitAtBrace_spec s pre b rest hsp
    rcases hb with hb | hb <;> subst hb
    · rw [bodyScanGo_eq_some s.length s pre _ rest 0 0 [] hsp]
      rw [if_pos (rfl : ('\x7b' : Char) = '\x7b')]
      rw [if_neg (by norm_num : ¬((0 : Int) + 1 ≤ 0))]
      rw [if_pos (by norm_num : ((0 : Int) + 1 > 0))]
      have hm := bodyScanGo_maxD_mono s.length rest (by omega) (0 + 1) (0 + 1) ([] ++ pre)
      omega
    · rw [bodyScanGo_eq_some s.length s pre _ rest 0 0 [] hsp] at h0
      rw [if_neg (by decide : ¬('\x7d' : Char) = '\x7b')] at h0
      rw [if_pos (by norm_num : ((0 : Int) - 1 ≤ 0))] at h0
      norm_num at h0

/-- C1.  For every input text and declaration keyword, every declaration
produced by `extractBodies` has a brace-balanced body (its brace depth
returns to exactly `0` at its end) and a `maxDepth` of at least `1`; and a
candidate whose scan does not end with depth `0` (in particular one that
exhausts the input) produces no declaration — `buildBody` returns `none`,
emitting nothing. -/
theorem c1_balanced_extraction :
    (∀ (text kw : List Char) (d : BodyDecl), d ∈ extractBodies text kw →
      braceDepth d.code = 0 ∧ 1 ≤ d.maxDepth) ∧
    (∀ (text kw : List Char) (c : Candidate),
      (bodyScan (text.drop c.index) 0 0 []).2.1 ≠ 0 → buildBody text kw c = none) := by
  constructor
  · intro text kw d hd
    rcases List.mem_filterMap.mp hd with ⟨c, _, hbuild⟩
    rw [buildBody] at hbuild
    by_cases hcond : (bodyScan (text.drop c.index) 0 0 []).2.1 = 0 ∧
        (bodyScan (text.drop c.index) 0 0 []).1 ≠ []
    · rw [if_pos hcond] at hbuild
      have hd' := Option.some.inj hbuild
      have hcode : d.code = (bodyScan (text.drop c.index) 0 0 []).1 := by
        rw [← hd']
      have hmax : d.maxDepth = (bodyScan (text.drop c.index) 0 0 []).2.2 := by
        rw [← hd']
      constructor
      · rw [hcode, bodyScan_depth (text.drop c.index) 0 0 [] rfl]
        exact hcond.1
      · rw [hmax]
        exact bodyScan_valid_maxD (text.drop c.index) hcond.1 hcond.2
    · rw [if_neg hcond] at hbuild
      exact absurd hbuild (by simp)
  · intro text kw c h
    rw [buildBody, if_neg (fun hc => h hc.1)]

/-- Witness for C1: the balanced declaration extracted from
`"func f() { }"` satisfies the invariant, and the truncated input
`"func g() { if (x) {"` (scan ends at depth 2) builds no declaration. -/
theorem c1_balanced_extraction_witness :
    (braceDepth ("func f() \x7b \x7d".toList) = 0 ∧
      (1 : Int) ≤ (1 : Int)) ∧
    buildBody "func g() \x7b if (x) \x7b".toList "func".toList ⟨"g".toList, 0⟩ = none := by
  constructor
  · exact c1_balanced_extraction.1 "func f() \x7b \x7d".toList "func".toList
      ⟨"func f() \x7b \x7d".toList, "f".toList, 0, "func".toList, 1, none, ParamsVal.undef⟩
      (by decide)
  · exact c1_balanced_extraction.2 "func g() \x7b if (x) \x7b".toList "func".toList
      ⟨"g".toList, 0⟩ (by decide)

/-- Reference counter written from the claim: walking the parameter text,
a comma counts as a parameter boundary only when the parenthesis-depth
counter is exactly `1`, and the walk stops the first time the depth
returns to `0`. -/
def commasAtDepthOne : List Char → Int → Nat
  | [], _ => 0
  | c :: rest, depth =>
    let d1 := if c = '(' then depth + 1 else depth
    let d2 := if c = ')' then d1 - 1 else d1
    if d2 = 0 then 0
    else (if d2 = 1 ∧ c = ',' then 1 else 0) + commasAtDepthOne rest d2

theorem paramLoop_spec : ∀ (s : List Char) (pos : Nat) (depth : Int) (count : Nat),
    (paramLoop s pos depth count).1 = count + commasAtDepthOne s depth := by
  intro s
  induction s with
  | nil => intro pos depth count; simp [paramLoop, commasAtDepthOne]
  | cons c rest ih =>
    intro pos depth count
    simp only [paramLoop, commasAtDepthOne]
    set d1 := if c = '(' then depth + 1 else depth with hd1
    set d2 := if c = ')' then d1 - 1 else d1 with hd2
    by_cases h0 : d2 = 0
    · rw [if_pos h0, if_pos h0]
      have hno : ¬(d2 = 1 ∧ c = ',') := by
        rw [h0]
        rintro ⟨h, _⟩
        norm_num at h
      rw [if_neg hno]
      simp
    · rw [if_neg h0, if_neg h0]
      by_cases hcm : d2 = 1 ∧ c = ','
      · rw [if_pos hcm, if_pos hcm, ih]
        omega
      · rw [if_neg hcm, if_neg hcm, ih]
        omega

/-- C2.  The parameter scan of `getFunctionParameters` counts a comma as
a parameter boundary exactly when the parenthesis-depth counter is `1`,
stopping the first time the depth returns to `0` (the loop count equals
the initial count plus the reference count `commasAtDepthOne`), and the
function extracted from
`"func f(a: Int, b: (Int, Int) -> Int, c: String) { }"` gets
`paramCount = 3`. -/
theorem c2_parameter_counting :
    (∀ (s : List Char) (pos : Nat) (depth : Int) (count : Nat),
      (paramLoop s pos depth count).1 = count + commasAtDepthOne s depth) ∧
    ((extractFunctions
        "func f(a: Int, b: (Int, Int) -> Int, c: String) \x7b \x7d".toList).map
      (fun f => (getFunctionParameters f).paramCount)) = [some 3] := by
  constructor
  · exact paramLoop_spec
  · decide

/-- C3.  The complexity score of a function is `complexityOf` (keyword
occurrences of `if`, `func`, `while`, `for`, `guard`, plus `case` count
minus `fallthrough` count when a `switch` is present and the difference is
positive).  `cyclomaticComplexityRule` emits a finding for a listed
function exactly above score 10, with severity `error` exactly above 20;
a body with 11 branching keywords (no `switch`) warns, one with 21
errors, and one with 10 yields no finding. -/
theorem c3_complexity_thresholds :
    (∀ (ln : List Nat) (text : List Char) (functions : List BodyDecl)
      (f : BodyDecl), f ∈ functions → 10 < complexityOf f.code →
      (⟨f.code, f.index,
        (if 20 < complexityOf f.code then Severity.error else Severity.warning),
        cycloMessage f.name (complexityOf f.code)⟩ : RawFinding) ∈
          cyclomaticComplexityRule ln text functions) ∧
    (∀ f : BodyDecl, complexityOf f.code ≤ 10 → complexityFinding f = none) ∧
    cyclomaticComplexityRule [] []
        [⟨"if if if if if if if if if if if".toList, "f".toList, 0,
          "func".toList, 1, none, ParamsVal.undef⟩] =
      [⟨"if if if if if if if if if if if".toList, 0, Severity.warning,
        cycloMessage "f".toList 11⟩] ∧
    cyclomaticComplexityRule [] []
        [⟨"if if if if if if if if if if if if if if if if if if if if if".toList,
          "g".toList, 0, "func".toList, 1, none, ParamsVal.undef⟩] =
      [⟨"if if if if if if if if if if if if if if if if if if if if if".toList, 0,
        Severity.error, cycloMessage "g".toList 21⟩] ∧
    cyclomaticComplexityRule [] []
        [⟨"if if if if if if if if if if".toList, "h".toList, 0,
          "func".toList, 1, none, ParamsVal.undef⟩] = [] := by
  refine ⟨?_, ?_, by decide, by decide, by decide⟩
  · intro ln text functions f hf h10
    apply List.mem_filterMap.mpr
    refine ⟨f, hf, ?_⟩
    simp only [complexityFinding]
    rw [if_pos h10]
  · intro f hle
    simp only [complexityFinding]
    rw [if_neg (by omega)]

/-- Witness for C3: the membership conjunct applied to the concrete
11-keyword function, and the no-finding conjunct applied to the concrete
10-keyword function. -/
theorem c3_complexity_thresholds_witness :
    ((⟨"if if if if if if if if if if if".toList, 0,
      (if 20 < complexityOf "if if if if if if if if if if if".toList
        then Severity.error else Severity.warning),
      cycloMessage "f".toList
        (complexityOf "if if if if if if if if if if if".toList)⟩ : RawFinding) ∈
        cyclomaticComplexityRule [] []
          [⟨"if if if if if if if if if if if".toList, "f".toList, 0,
            "func".toList, 1, none, ParamsVal.undef⟩]) ∧
    complexityFinding ⟨"if if if if if if if if if if".toList, "h".toList, 0,
      "func".toList, 1, none, ParamsVal.undef⟩ = none := by
  constructor
  · exact c3_complexity_thresholds.1 [] []
      [⟨"if if if if if if if if if if if".toList, "f".toList, 0,
        "func".toList, 1, none, ParamsVal.undef⟩]
      ⟨"if if if if if if if if if if if".toList, "f".toList, 0,
        "func".toList, 1, none, ParamsVal.undef⟩
      (by decide) (by decide)
  · exact c3_complexity_thresholds.2.1
      ⟨"if if if if if if if if if if".toList, "h".toList, 0,
        "func".toList, 1, none, ParamsVal.undef⟩ (by decide)

/-- C4 counterexample.  The claim predicts that a non-constant-eligible
binding named `"ABC"` fails the shape test with a warning finding; in the
code the shape test applied to non-static-immutable bindings is
`immutableTest`, whose `[A-Z0-9]+` alternative accepts `"ABC"`, so no
finding is produced at all. -/
theorem c4_shape_test_counterexample :
    testVariableName ⟨"ABC".toList, false, 0⟩ = none := by decide

theorem testVariableName_shape_nonconst (v : VarInfo)
    (hsi : v.staticImmutable = false) (h3 : 3 ≤ v.name.length)
    (h40 : v.name.length ≤ 40) :
    testVariableName v = none ↔ immutableTest v.name = true := by
  rw [testVariableName, if_neg (by omega), if_neg (by omega), hsi]
  cases himm : immutableTest v.name <;> simp [himm]

theorem testVariableName_shape_const (v : VarInfo)
    (hsi : v.staticImmutable = true) (h3 : 3 ≤ v.name.length)
    (h40 : v.name.length ≤ 40) :
    testVariableName v = none ↔ mutableTest v.name = true := by
  rw [testVariableName, if_neg (by omega), if_neg (by omega), hsi]
  cases hmut : mutableTest v.name <;> simp [hmut]

/-- C4 amended.  For bindings whose names pass the length checks (3 to 40
characters), the code applies the lowercase-leading-or-ALL-CAPS shape
(`immutableTest`) to NON-constant-eligible bindings and the
any-letter-leading shape (`mutableTest`) to constant-eligible ones — the
opposite of the spec's assignment.  Consequently a binding named `"ABC"`
passes the shape test and yields no finding whether or not it is
constant-eligible (the non-constant test accepts ALL-CAPS through its
`[A-Z0-9]+` alternative), while a non-constant binding named `"Abc"`
fails the shape test with a warning. -/
theorem c4_shape_test_amended :
    (∀ v : VarInfo, v.staticImmutable = false → 3 ≤ v.name.length →
      v.name.length ≤ 40 →
      (testVariableName v = none ↔ immutableTest v.name = true)) ∧
    (∀ v : VarInfo, v.staticImmutable = true → 3 ≤ v.name.length →
      v.name.length ≤ 40 →
      (testVariableName v = none ↔ mutableTest v.name = true)) ∧
    testVariableName ⟨"ABC".toList, false, 0⟩ = none ∧
    testVariableName ⟨"ABC".toList, true, 0⟩ = none ∧
    testVariableName ⟨"Abc".toList, false, 0⟩ =
      some ⟨"Abc".toList, 0, Severity.warning, mutableShapeMsg⟩ :=
  ⟨testVariableName_shape_nonconst, testVariableName_shape_const,
    by decide, by decide, by decide⟩

/-- Witness for C4 (amended): the shape characterizations applied to the
concrete non-constant binding `"ABC"` and the constant binding `"ABC"`. -/
theorem c4_shape_test_amended_witness :
    (testVariableName ⟨"ABC".toList, false, 0⟩ = none ↔
      immutableTest "ABC".toList = true) ∧
    (testVariableName ⟨"ABC".toList, true, 0⟩ = none ↔
      mutableTest "ABC".toList = true) := by
  constructor
  · exact c4_shape_test_amended.1 ⟨"ABC".toList, false, 0⟩ rfl
      (by decide) (by decide)
  · exact c4_shape_test_amended.2.1 ⟨"ABC".toList, true, 0⟩ rfl
      (by decide) (by decide)

/-- C5 counterexample.  The claim predicts severity `error` for a binding
whose name has exactly 2 characters; the code escalates to `error` only
below 2 characters (`length < 2`), so `"ab"` gets a warning. -/
theorem c5_short_name_counterexample :
    testVariableName ⟨"ab".toList, false, 0⟩ =
      some ⟨"ab".toList, 0, Severity.warning, tooShortMsg⟩ ∧
    Severity.warning ≠ Severity.error := by
  constructor
  · decide
  · decide

/-- C5 amended.  A binding whose name has exactly 2 characters yields a
too-short finding of severity `warning` (the escalation to `error`
applies only below 2 characters, e.g. to one-character names); a binding
whose name has exactly 3 characters yields no finding from the length
checks (any finding it gets carries a shape message, and `"abc"` gets
none at all). -/
theorem c5_short_name_amended :
    (∀ v : VarInfo, v.name.length = 2 →
      testVariableName v = some ⟨v.name, v.index, Severity.warning, tooShortMsg⟩) ∧
    (∀ v : VarInfo, v.name.length < 2 →
      testVariableName v = some ⟨v.name, v.index, Severity.error, tooShortMsg⟩) ∧
    (∀ (v : VarInfo) (e : RawFinding), v.name.length = 3 →
      testVariableName v = some e →
      e.message ≠ tooShortMsg ∧ e.message ≠ tooLongMsg) ∧
    testVariableName ⟨"abc".toList, false, 0⟩ = none := by
  refine ⟨?_, ?_, ?_, by decide⟩
  · intro v h2
    rw [testVariableName, if_pos (by omega), if_neg (by omega)]
  · intro v h1
    rw [testVariableName, if_pos (by omega), if_pos (by omega)]
  · intro v e h3 he
    rw [testVariableName, if_neg (by omega), if_neg (by omega)] at he
    by_cases hsi : !v.staticImmutable
    · rw [if_pos hsi] at he
      by_cases himm : !immutableTest v.name
      · rw [if_pos himm] at he
        have := Option.some.inj he
        rw [← this]
        constructor
        · show mutableShapeMsg ≠ tooShortMsg
          decide
        · show mutableShapeMsg ≠ tooLongMsg
          decide
      · rw [if_neg himm] at he
        exact absurd he (by simp)
    · rw [if_neg hsi] at he
      by_cases hmut : !mutableTest v.name
      · rw [if_pos hmut] at he
        have := Option.some.inj he
        rw [← this]
        constructor
        · show immutableShapeMsg ≠ tooShortMsg
          decide
        · show immutableShapeMsg ≠ tooLongMsg
          decide
      · rw [if_neg hmut] at he
        exact absurd he (by simp)

/-- Witness for C5 (amended): the warning conjunct at the concrete name
`"ab"`, the error conjunct at `"a"`, and the length-three conjunct at a
shape-failing three-character name. -/
theorem c5_short_name_amended_witness :
    testVariableName ⟨"ab".toList, false, 0⟩ =
      some ⟨"ab".toList, 0, Severity.warning, tooShortMsg⟩ ∧
    testVariableName ⟨"a".toList, false, 0⟩ =
      some ⟨"a".toList, 0, Severity.error, tooShortMsg⟩ ∧
    (mutableShapeMsg ≠ tooShortMsg ∧ mutableShapeMsg ≠ tooLongMsg) := by
  refine ⟨?_, ?_, ?_⟩
  · exact c5_short_name_amended.1 ⟨"ab".toList, false, 0⟩ (by decide)
  · exact c5_short_name_amended.2.1 ⟨"a".toList, false, 0⟩ (by decide)
  · exact c5_short_name_amended.2.2.1 ⟨"Abc".toList, false, 0⟩
      ⟨"Abc".toList, 0, Severity.warning, mutableShapeMsg⟩ (by decide) (by decide)

theorem regexException_iff (idx : Nat) : ∀ ranges : List ERange,
    regexException idx ranges = true ↔
      ∃ r ∈ ranges, r.start ≤ idx ∧ idx < r.endPos := by
  intro ranges
  induction ranges with
  | nil => simp [regexException]
  | cons r rest ih =>
    rw [regexException]
    by_cases h : r.start ≤ idx ∧ r.endPos > idx
    · rw [if_pos h]
      exact iff_of_true rfl ⟨r, List.mem_cons_self r rest, h.1, h.2⟩
    · rw [if_neg h, ih]
      constructor
      · rintro ⟨r', hr', hc⟩
        exact ⟨r', List.mem_cons_of_mem r hr', hc⟩
      · rintro ⟨r', hr', hc⟩
        rcases List.mem_cons.mp hr' with heq | hmem
        · subst heq
          exact absurd ⟨hc.1, hc.2⟩ h
        · exact ⟨r', hmem, hc⟩

/-- C7.  A match offset is suppressed by `regexException` exactly when it
falls inside some exception range under the half-open test
`start ≤ o < end`; concretely, the multi-line header `"if\n(x)\n{"`
(covered by the opening-brace exception pattern) produces no
opening-brace finding, while the single-line `"if (x){"`, with no
exception range, produces exactly one. -/
theorem c7_exception_suppression :
    (∀ (idx : Nat) (ranges : List ERange),
      regexException idx ranges = true ↔
        ∃ r ∈ ranges, r.start ≤ idx ∧ idx < r.endPos) ∧
    regexRule "if\n(x)\n\x7b".toList openingBraceRule = [] ∧
    regexRule "if (x)\x7b".toList openingBraceRule =
      [⟨")\x7b".toList, 5, Severity.warning, openingBraceRule.message⟩] :=
  ⟨regexException_iff, by decide, by decide⟩

theorem processRawErrors_eq_filterMap (ln : List Nat) (tlen : Nat) :
    ∀ errs : List RawFinding,
      processRawErrors ln tlen errs = errs.filterMap (resolveFinding ln tlen) := by
  intro errs
  induction errs with
  | nil => rfl
  | cons e rest ih =>
    rw [processRawErrors]
    cases he : resolveFinding ln tlen e
    · rw [ih, List.filterMap_cons_none he]
    · rw [ih, List.filterMap_cons_some he]

/-- C8.  The lint entry point is total by construction — for every text
and options it yields a diagnostic list (`swiftLint` is a total function
into `List Diagnostic`; no failure value exists).  Aggregation is
per-finding: `processRawErrors` is exactly a `filterMap` of the
resolution step, and a finding whose start or end offset fails position
resolution is dropped individually, leaving the diagnostics of every
other finding unchanged. -/
theorem c8_totality_and_individual_drop :
    (∀ (Opts CM : Type) (text : List Char) (opts : Opts) (cm : CM),
      ∃ ds : List Diagnostic, swiftLint Opts CM text opts cm = ds) ∧
    (∀ (ln : List Nat) (tlen : Nat) (errs : List RawFinding),
      processRawErrors ln tlen errs = errs.filterMap (resolveFinding ln tlen)) ∧
    (∀ (ln : List Nat) (tlen : Nat) (pre post : List RawFinding) (e : RawFinding),
      resolveFinding ln tlen e = none →
      processRawErrors ln tlen (pre ++ e :: post) =
        processRawErrors ln tlen (pre ++ post)) := by
  refine ⟨fun Opts CM text opts cm => ⟨_, rfl⟩, processRawErrors_eq_filterMap, ?_⟩
  intro ln tlen pre post e he
  rw [processRawErrors_eq_filterMap, processRawErrors_eq_filterMap,
    List.filterMap_append, List.filterMap_append, List.filterMap_cons_none he]

/-- Witness for C8: a finding whose start offset `5` lies beyond the text
(length `0`) fails resolution and is dropped from the middle of a list
without affecting the resolvable finding before it. -/
theorem c8_totality_and_individual_drop_witness :
    processRawErrors [0] 0
        ([⟨[], 0, Severity.warning, "ok"⟩] ++
          (⟨[], 5, Severity.warning, "bad"⟩ : RawFinding) ::
            [⟨[], 0, Severity.error, "ok2"⟩]) =
      processRawErrors [0] 0
        ([⟨[], 0, Severity.warning, "ok"⟩] ++ [⟨[], 0, Severity.error, "ok2"⟩]) :=
  c8_totality_and_individual_drop.2.2 [0] 0
    [⟨[], 0, Severity.warning, "ok"⟩] [⟨[], 0, Severity.error, "ok2"⟩]
    ⟨[], 5, Severity.warning, "bad"⟩ (by decide)

/-- C10.  Two runs of the lint entry point on the same text with any two
options values (and any editor object) return identical diagnostic lists:
no rule reads the options argument, so the output depends only on the
text. -/
theorem c10_options_noninterference (Opts CM : Type) (text : List Char)
    (o1 o2 : Opts) (cm : CM) :
    swiftLint Opts CM text o1 cm = swiftLint Opts CM text o2 cm := rfl

theorem lineLengthFindings_mem (ln : List Nat) :
    ∀ (lines : List (List Char)) (i0 i : Nat), i < lines.length →
      100 < (lines.getD i []).length →
      (⟨lines.getD i [], ln.getD (i0 + i) 0,
        (if 200 < (lines.getD i []).length then Severity.error else Severity.warning),
        lineLenMessage (lines.getD i []).length⟩ : RawFinding) ∈
        lineLengthFindings ln lines i0 := by
  intro lines
  induction lines with
  | nil => intro i0 i hi hlen; simp at hi
  | cons l ls ih =>
    intro i0 i hi hlen
    rw [lineLengthFindings]
    cases i with
    | zero =>
      simp only [List.getD_cons_zero] at hlen ⊢
      rw [if_pos (by omega)]
      simp only [Nat.add_zero]
      exact List.mem_append_left _ (List.mem_singleton_self _)
    | succ j =>
      simp only [List.getD_cons_succ] at hlen ⊢
      have harith : i0 + (j + 1) = (i0 + 1) + j := by omega
      rw [harith]
      exact List.mem_append_right _
        (ih (i0 + 1) j (by simpa using Nat.lt_of_succ_lt_succ hi) hlen)

theorem splitLines_total_length : ∀ t : List Char,
    ((splitLines t).map List.length).sum + (splitLines t).length = t.length + 1 := by
  intro t
  induction t with
  | nil => rfl
  | cons c rest ih =>
    rw [splitLines]
    by_cases hc : c = '\n'
    · rw [if_pos hc]
      simp only [List.map_cons, List.length_cons, List.sum_cons, List.length_nil]
      omega
    · rw [if_neg hc]
      match hs : splitLines rest with
      | [] => exact absurd hs (splitLines_ne_nil rest)
      | l :: ls =>
        rw [hs] at ih
        simp only [List.map_cons, List.sum_cons, List.length_cons] at ih ⊢
        omega

theorem lineStartsFrom_bound : ∀ (lines : List (List Char)) (cur i : Nat),
    i < lines.length →
    (lineStartsFrom lines cur).getD i 0 + (lines.getD i []).length + 1 ≤
      cur + (lines.map List.length).sum + lines.length := by
  intro lines
  induction lines with
  | nil => intro cur i hi; simp at hi
  | cons l ls ih =>
    intro cur i hi
    rw [lineStartsFrom]
    cases i with
    | zero =>
      simp only [List.getD_cons_zero, List.map_cons, List.sum_cons, List.length_cons]
      omega
    | succ j =>
      simp only [List.getD_cons_succ, List.map_cons, List.sum_cons, List.length_cons]
      have := ih (cur + l.length + 1) j (by simpa using Nat.lt_of_succ_lt_succ hi)
      omega

theorem obtainLineNumbers_line_bound (text : List Char) (i : Nat)
    (hi : i < (splitLines text).length) :
    (obtainLineNumbers text).getD i 0 + ((splitLines text).getD i []).length ≤
      text.length := by
  have h1 := lineStartsFrom_bound (splitLines text) 0 i hi
  have h2 := splitLines_total_length text
  rw [obtainLineNumbers]
  omega

theorem getLinePos_some (text : List Char) (o : Nat) (h : o ≤ text.length) :
    ∃ p, getLinePos (obtainLineNumbers text) text.length o = some p := by
  have h0 : 0 < (obtainLineNumbers text).length :=
    List.length_pos.mpr (obtainLineNumbers_ne_nil text)
  obtain ⟨l, c, hsome, _⟩ := getLinePosGo_total (obtainLineNumbers text) text.length o
    ((obtainLineNumbers text).length + 1) 0 (by omega) h0
    (by rw [obtainLineNumbers_head]; omega) h
  exact ⟨⟨l, c⟩, hsome⟩

theorem mem_foldl_applyRule_of_mem (ln : List Nat) (tlen : Nat) (text : List Char)
    (structures : List BodyDecl) (x : Diagnostic) :
    ∀ (rules : List LintRule) (acc : List Diagnostic), x ∈ acc →
      x ∈ rules.foldl (fun a r => applyRule ln tlen text structures a r) acc := by
  intro rules
  induction rules with
  | nil => intro acc h; simpa using h
  | cons r rs ih =>
    intro acc h
    rw [List.foldl_cons]
    exact ih _ (by rw [applyRule]; exact List.mem_append_left _ h)

theorem mem_foldl_applyRule_of_rule (ln : List Nat) (tlen : Nat) (text : List Char)
    (structures : List BodyDecl) (x : Diagnostic) :
    ∀ (rules : List LintRule) (acc : List Diagnostic) (r : LintRule), r ∈ rules →
      x ∈ processRawErrors ln tlen (r ln text structures) →
      x ∈ rules.foldl (fun a r => applyRule ln tlen text structures a r) acc := by
  intro rules
  induction rules with
  | nil => intro acc r hr _; simp at hr
  | cons r0 rs ih =>
    intro acc r hr hx
    rw [List.foldl_cons]
    rcases List.mem_cons.mp hr with heq | hmem
    · subst heq
      apply mem_foldl_applyRule_of_mem
      rw [applyRule]
      exact List.mem_append_right _ hx
    · exact ih _ r hmem hx

/-- C9.  For every input text, every line longer than 100 characters
produces a diagnostic in the output of the lint entry point with severity
`warning` (escalating to `error` above 200 characters) and the
line-length message; the producing rule, `lineLengthRule`, is a member of
`allFunctionRules` and thus runs as part of the function-rule family. -/
theorem c9_line_length_rule (Opts CM : Type) (opts : Opts) (cm : CM)
    (text : List Char) (i : Nat)
    (hi : i < (splitLines text).length)
    (hlen : 100 < ((splitLines text).getD i []).length) :
    lineLengthRule ∈ allFunctionRules ∧
    ∃ d ∈ swiftLint Opts CM text opts cm,
      d.severity = (if 200 < ((splitLines text).getD i []).length
        then Severity.error else Severity.warning) ∧
      d.message = lineLenMessage ((splitLines text).getD i []).length := by
  constructor
  · simp [allFunctionRules]
  · have hbound := obtainLineNumbers_line_bound text i hi
    obtain ⟨p1, hp1⟩ := getLinePos_some text
      ((obtainLineNumbers text).getD i 0) (by omega)
    obtain ⟨p2, hp2⟩ := getLinePos_some text
      ((obtainLineNumbers text).getD i 0 + ((splitLines text).getD i []).length)
      (by omega)
    have hfind := lineLengthFindings_mem (obtainLineNumbers text)
      (splitLines text) 0 i hi hlen
    simp only [Nat.zero_add] at hfind
    have hres : resolveFinding (obtainLineNumbers text) text.length
        ⟨(splitLines text).getD i [], (obtainLineNumbers text).getD i 0,
          (if 200 < ((splitLines text).getD i []).length
            then Severity.error else Severity.warning),
          lineLenMessage ((splitLines text).getD i []).length⟩ =
        some ⟨(if 200 < ((splitLines text).getD i []).length
            then Severity.error else Severity.warning),
          lineLenMessage ((splitLines text).getD i []).length, p1, p2⟩ := by
      rw [resolveFinding]
      simp only [hp1, hp2]
    refine ⟨⟨(if 200 < ((splitLines text).getD i []).length
        then Severity.error else Severity.warning),
      lineLenMessage ((splitLines text).getD i []).length, p1, p2⟩, ?_, rfl, rfl⟩
    simp only [swiftLint]
    apply mem_foldl_applyRule_of_mem
    apply mem_foldl_applyRule_of_rule _ _ _ _ _ _ _ lineLengthRule
      (by simp [allFunctionRules])
    rw [processRawErrors_eq_filterMap]
    exact List.mem_filterMap.mpr ⟨_, hfind, hres⟩

/-- Witness for C9 at a concrete single-line text of 101 characters. -/
theorem c9_line_length_rule_witness :
    lineLengthRule ∈ allFunctionRules ∧
    ∃ d ∈ swiftLint Unit Unit (List.replicate 101 'a') () (),
      d.severity = (if 200 < ((splitLines (List.replicate 101 'a')).getD 0 []).length
        then Severity.error else Severity.warning) ∧
      d.message =
        lineLenMessage ((splitLines (List.replicate 101 'a')).getD 0 []).length :=
  c9_line_length_rule Unit Unit () () (List.replicate 101 'a') 0
    (by decide) (by decide)

end SwiftLint
